import Mathlib

/-!
Verification development for the RetailRocket item-to-item recommender
pipeline.  The definitions below are a shallow embedding of the Python
sources:

* `cosine_style_sim`, `final_score`  —  src/rank.py
* `flushGroup`, `sessLoop`, `cooccurFromSessionsCsv`  —  src/cooccur.py
* `addEdge`, `build_topk`  —  src/build_index.py
* `recommend`  —  src/api.py
* `Config`, `mkConfig`  —  src/config.py

Python floats are modelled as real numbers; Python `Counter` objects are
modelled as total functions with default value `0`; Python `dict`s are
modelled as insertion-ordered association lists (a new key is appended at
the end, an existing key keeps its position, lookup finds the first
match), which mirrors the insertion-order iteration semantics of Python
dictionaries; Python `set`s of integers are modelled by their canonical
strictly-sorted element lists.
-/

namespace RetailRocket

/-! ### Counters (model of `collections.Counter`) -/

/-- Item-frequency counter: every integer key maps to a count, missing keys
count as `0`, matching `Counter` lookup semantics. -/
abbrev Cnt := ℤ → ℕ

/-- Pair-count counter keyed by ordered pairs. -/
abbrev PCnt := ℤ × ℤ → ℕ

/-- The update `item_freq[it] += 1`. -/
def bumpItem (f : Cnt) (it : ℤ) : Cnt :=
  fun i => if i = it then f i + 1 else f i

/-- The update `pair_counts[(a, b)] += 1`. -/
def bumpPair (p : PCnt) (q : ℤ × ℤ) : PCnt :=
  fun x => if x = q then p x + 1 else p x

/-- `itertools.combinations(l, 2)` : all pairs `(l[i], l[j])` with `i < j`,
in lexicographic position order. -/
def combos2 : List ℤ → List (ℤ × ℤ)
  | [] => []
  | a :: rest => rest.map (fun b => (a, b)) ++ combos2 rest

/-- `_flush_group` from src/cooccur.py: given one basket (a Python set of
item ids, modelled by its sorted element list), bump the frequency of every
item once and every combination pair once; an empty basket is a no-op. -/
def flushGroup (g : List ℤ) (fp : Cnt × PCnt) : Cnt × PCnt :=
  if g = [] then fp
  else (g.foldl bumpItem fp.1, (combos2 g).foldl bumpPair fp.2)

/-- Folding `_flush_group` over a list of baskets (the aggregation loop). -/
def aggBaskets (bs : List (List ℤ)) (cnt : Cnt × PCnt) : Cnt × PCnt :=
  bs.foldl (fun c g => flushGroup g c) cnt

/-! ### Session stream (model of `cooccur_from_sessions_csv`) -/

/-- One row of sessions.csv: the columns `session_id`, `event`, `itemid`
used by `cooccur_from_sessions_csv`. -/
structure SRow where
  session : ℤ
  event : String
  itemid : ℤ
deriving DecidableEq

/-- The row filter `chunk[chunk["event"] == "view"]`. -/
def isView (r : SRow) : Bool := r.event = "view"

/-- `items_in_session.add(itemid)` : insertion into the sorted-list model
of a Python set (keeps the list strictly sorted, ignores duplicates). -/
def insertSet (x : ℤ) : List ℤ → List ℤ
  | [] => [x]
  | y :: l => if x < y then x :: y :: l else if x = y then y :: l else y :: insertSet x l

/-- The row loop of `cooccur_from_sessions_csv`: state is
`(current_session, items_in_session, (item_freq, pair_counts))`.  When
`current_session` is unset it is initialised to the row key; a changed key
flushes the accumulated basket and restarts it; the final basket is
flushed at end of stream. -/
def sessLoop : List SRow → Option ℤ → List ℤ → Cnt × PCnt → Cnt × PCnt
  | [], _, items, cnt => flushGroup items cnt
  | r :: rest, cur, items, cnt =>
    let cur' := cur.getD r.session
    if r.session ≠ cur' then
      sessLoop rest (some r.session) (insertSet r.itemid []) (flushGroup items cnt)
    else
      sessLoop rest (some cur') (insertSet r.itemid items) cnt

/-- `cooccur_from_sessions_csv` from src/cooccur.py: keep only `view`
rows, then stream them through the session loop starting with no current
session, an empty basket and empty counters. -/
def cooccurFromSessionsCsv (rows : List SRow) : Cnt × PCnt :=
  sessLoop (rows.filter isView) none [] (fun _ => 0, fun _ => 0)

/-- The item set accumulated from a list of rows (a run of one session). -/
def runItems (run : List SRow) : List ℤ :=
  run.foldl (fun s r => insertSet r.itemid s) []

/-- Maximal contiguous runs of rows sharing a session key. -/
def runsBy : List SRow → List (List SRow)
  | [] => []
  | r :: rest =>
    (r :: rest.takeWhile (fun x => x.session = r.session)) ::
      runsBy (rest.dropWhile (fun x => x.session = r.session))
  termination_by l => l.length
  decreasing_by
    exact Nat.lt_succ_of_le (List.dropWhile_sublist _).length_le

/-- Reformulation of the session loop that emits the basket of each run
instead of flushing it: used to relate the streaming loop to basket-list
aggregation. -/
def runsByK (k : ℤ) (items : List ℤ) : List SRow → List (List ℤ)
  | [] => [items]
  | r :: rest =>
    if r.session = k then runsByK k (insertSet r.itemid items) rest
    else items :: runsByK r.session (insertSet r.itemid []) rest

/-- The item set of the session with key `k` among the rows `fr`. -/
def sessionItems (fr : List SRow) (k : ℤ) : List ℤ :=
  runItems (fr.filter (fun r => r.session = k))

/-- A key sequence is clustered when equal keys are contiguous: no key
recurs after a different key has intervened. -/
def Clustered (l : List ℤ) : Prop :=
  ∀ x ∈ l, ∀ y ∈ l, List.Sublist [x, y, x] l → y = x

instance decidableClustered (l : List ℤ) : Decidable (Clustered l) :=
  inferInstanceAs (Decidable (∀ x ∈ l, ∀ y ∈ l, List.Sublist [x, y, x] l → y = x))

/-! ### Similarity and blending (model of src/rank.py) -/

/-- `cosine_style_sim` from src/rank.py, with Python floats modelled as
real numbers: `count_ab / sqrt(freq_a * freq_b)` guarded by the two early
returns of `0.0` for non-positive inputs. -/
noncomputable def cosine_style_sim (count_ab freq_a freq_b : ℤ) : ℝ :=
  if count_ab ≤ 0 then 0
  else if freq_a ≤ 0 ∨ freq_b ≤ 0 then 0
  else (count_ab : ℝ) / Real.sqrt ((freq_a : ℝ) * (freq_b : ℝ))

/-- `final_score` from src/rank.py. -/
noncomputable def final_score (view_sim buy_sim w_view w_buy : ℝ) : ℝ :=
  w_view * view_sim + w_buy * buy_sim

/-! ### Score graph and Top-K reduction (model of src/build_index.py) -/

/-- Inner adjacency dictionary `scores[a]` : target item to score. -/
abbrev Inner := List (ℤ × ℝ)

/-- The dict-of-dicts `scores`. -/
abbrev Graph := List (ℤ × Inner)

/-- First-match lookup in an association list (Python `d.get(k)`). -/
def lookupA {β : Type} (k : ℤ) : List (ℤ × β) → Option β
  | [] => none
  | e :: rest => if k = e.1 then some e.2 else lookupA k rest

/-- Python `d[k] = v` on an insertion-ordered dictionary: overwrite in
place when the key exists, append at the end when it does not. -/
def updateA {β : Type} (k : ℤ) (v : β) : List (ℤ × β) → List (ℤ × β)
  | [] => [(k, v)]
  | e :: rest => if k = e.1 then (k, v) :: rest else e :: updateA k v rest

/-- `add_edge` from `build_topk` in src/build_index.py: drop non-positive
scores, `scores.setdefault(a, {})`, then overwrite `scores[a][b]` only
when the new score exceeds the previously stored one (default `0.0`). -/
noncomputable def addEdge (a b : ℤ) (score : ℝ) (g : Graph) : Graph :=
  if score ≤ 0 then g
  else
    let g1 := if (lookupA a g).isSome then g else g ++ [(a, ([] : Inner))]
    let inner := (lookupA a g1).getD []
    let prev := (lookupA b inner).getD 0
    if prev < score then updateA a (updateA b score inner) g1 else g1

/-- The two symmetric `add_edge` calls made for every pair row. -/
noncomputable def addEdgePair (a b : ℤ) (s : ℝ) (g : Graph) : Graph :=
  addEdge b a s (addEdge a b s g)

/-- Processing one row of the view pair table inside `build_topk`. -/
noncomputable def viewContrib (w_view w_buy : ℝ) (vf : ℤ → ℤ) (g : Graph)
    (r : ℤ × ℤ × ℤ) : Graph :=
  addEdgePair r.1 r.2.1
    (final_score (cosine_style_sim r.2.2 (vf r.1) (vf r.2.1)) 0 w_view w_buy) g

/-- Processing one row of the buy pair table inside `build_topk`. -/
noncomputable def buyContrib (w_view w_buy : ℝ) (bf : ℤ → ℤ) (g : Graph)
    (r : ℤ × ℤ × ℤ) : Graph :=
  addEdgePair r.1 r.2.1
    (final_score 0 (cosine_style_sim r.2.2 (bf r.1) (bf r.2.1)) w_view w_buy) g

/-- Phases 1 and 2 of `build_topk`: fold the view rows and then the buy
rows into the score graph.  Frequency dictionaries `view_item_freq` /
`buy_item_freq` are modelled as total functions (`.get(x, 0)` semantics),
pair tables as lists of `(item_i, item_j, count)` rows. -/
noncomputable def buildScores (vf : ℤ → ℤ) (vp : List (ℤ × ℤ × ℤ))
    (bf : ℤ → ℤ) (bp : List (ℤ × ℤ × ℤ)) (w_view w_buy : ℝ) : Graph :=
  bp.foldl (buyContrib w_view w_buy bf) (vp.foldl (viewContrib w_view w_buy vf) [])

/-- `sorted(neigh.items(), key=lambda x: x[1], reverse=True)` : stable
sort by descending score. -/
noncomputable def sortDesc (l : Inner) : Inner :=
  List.insertionSort (fun x y => y.2 ≤ x.2) l

/-- Phase 3 of `build_topk`: for every source item of the score graph, in
insertion order, sort its neighbours by descending score, truncate to the
first `topk` and keep only the item ids. -/
noncomputable def build_topk (vf : ℤ → ℤ) (vp : List (ℤ × ℤ × ℤ))
    (bf : ℤ → ℤ) (bp : List (ℤ × ℤ × ℤ)) (topk : ℕ) (w_view w_buy : ℝ) :
    List (ℤ × List ℤ) :=
  (buildScores vf vp bf bp w_view w_buy).map
    (fun e => (e.1, ((sortDesc e.2).take topk).map Prod.fst))

/-- The score stored in the graph for the directed pair `(a, b)`; missing
entries read as `0.0` (the `prev` default of `add_edge`). -/
def storedScore (g : Graph) (a b : ℤ) : ℝ :=
  (lookupA b ((lookupA a g).getD [])).getD 0

/-- Structural invariant of the score graph maintained by `add_edge`:
outer keys are distinct, every inner dictionary has distinct keys, is
non-empty and stores only positive scores, and every inner key is itself
an outer key (edges are inserted in symmetric pairs). -/
def GInv (g : Graph) : Prop :=
  (g.map Prod.fst).Nodup ∧
  (∀ e ∈ g, (e.2.map Prod.fst).Nodup ∧ e.2 ≠ [] ∧ ∀ q ∈ e.2, 0 < q.2) ∧
  (∀ e ∈ g, ∀ q ∈ e.2, (lookupA q.1 g).isSome)

/-! ### Serving lookup (model of src/api.py) -/

/-- The `/recommend` handler body from src/api.py:
`recs = TOPK.get(itemid, [])`, returns `recs[:k]` together with the
`available` flag `itemid in TOPK`. -/
def recommend (topkMap : List (ℤ × List ℤ)) (itemid : ℤ) (k : ℕ) :
    List ℤ × Bool :=
  (((lookupA itemid topkMap).getD []).take k, (lookupA itemid topkMap).isSome)

/-! ### Configuration (model of src/config.py) -/

/-- The frozen dataclass `Config` from src/config.py. -/
structure Config where
  topk : ℤ
  view_weight : ℝ
  buy_weight : ℝ

/-- Construction of `Config`: each field reads its environment variable
when set and otherwise falls back to the default (`TOPK=50`,
`VIEW_WEIGHT=1.0`, `BUY_WEIGHT=3.0`).  The dataclass body performs no
validation of the values. -/
def mkConfig (topkEnv : Option ℤ) (viewEnv buyEnv : Option ℝ) : Config :=
  ⟨topkEnv.getD 50, viewEnv.getD 1, buyEnv.getD 3⟩

/-! ### Counter lemmas -/

theorem foldl_bumpItem_apply (l : List ℤ) (hl : l.Nodup) (f : Cnt) (i : ℤ) :
    l.foldl bumpItem f i = f i + if i ∈ l then 1 else 0 := by
  induction l generalizing f with
  | nil => simp
  | cons a l ih =>
    rw [List.nodup_cons] at hl
    rw [List.foldl_cons, ih hl.2]
    by_cases h : i = a
    · subst h
      simp only [bumpItem, if_pos rfl, if_neg hl.1, List.mem_cons, true_or, if_pos]
    · simp only [bumpItem, if_neg h, List.mem_cons]
      simp [h]

theorem foldl_bumpPair_apply (l : List (ℤ × ℤ)) (hl : l.Nodup) (p : PCnt) (q : ℤ × ℤ) :
    l.foldl bumpPair p q = p q + if q ∈ l then 1 else 0 := by
  induction l generalizing p with
  | nil => simp
  | cons a l ih =>
    rw [List.nodup_cons] at hl
    rw [List.foldl_cons, ih hl.2]
    by_cases h : q = a
    · subst h
      simp only [bumpPair, if_pos rfl, if_neg hl.1, List.mem_cons, true_or, if_pos]
    · simp only [bumpPair, if_neg h, List.mem_cons]
      simp [h]

theorem mem_combos2_parts {q : ℤ × ℤ} {l : List ℤ} (h : q ∈ combos2 l) :
    q.1 ∈ l ∧ q.2 ∈ l := by
  induction l with
  | nil => simp [combos2] at h
  | cons a l ih =>
    simp only [combos2, List.mem_append, List.mem_map] at h
    rcases h with ⟨b, hb, rfl⟩ | h
    · exact ⟨List.mem_cons_self _ _, List.mem_cons_of_mem _ hb⟩
    · exact ⟨List.mem_cons_of_mem _ (ih h).1, List.mem_cons_of_mem _ (ih h).2⟩

theorem mem_combos2 {l : List ℤ} (hs : List.Sorted (· < ·) l) (a b : ℤ) :
    (a, b) ∈ combos2 l ↔ a ∈ l ∧ b ∈ l ∧ a < b := by
  induction l with
  | nil => simp [combos2]
  | cons x l ih =>
    rw [List.sorted_cons] at hs
    obtain ⟨hx, hs⟩ := hs
    constructor
    · intro h
      simp only [combos2, List.mem_append, List.mem_map] at h
      rcases h with ⟨c, hc, hq⟩ | h
      · obtain ⟨rfl, rfl⟩ := Prod.mk.injEq .. ▸ hq
        exact ⟨List.mem_cons_self _ _, List.mem_cons_of_mem _ hc, hx _ hc⟩
      · obtain ⟨h1, h2, h3⟩ := (ih hs).mp h
        exact ⟨List.mem_cons_of_mem _ h1, List.mem_cons_of_mem _ h2, h3⟩
    · rintro ⟨ha, hb, hab⟩
      simp only [combos2, List.mem_append, List.mem_map]
      rcases List.mem_cons.mp ha with ha1 | ha2
      · rcases List.mem_cons.mp hb with hb1 | hb2
        · exfalso; rw [ha1, hb1] at hab; exact lt_irrefl _ hab
        · exact Or.inl ⟨b, hb2, by rw [ha1]⟩
      · rcases List.mem_cons.mp hb with hb1 | hb2
        · exfalso; rw [hb1] at hab; exact lt_asymm (hx _ ha2) hab
        · exact Or.inr ((ih hs).mpr ⟨ha2, hb2, hab⟩)

theorem nodup_combos2 {l : List ℤ} (h : l.Nodup) : (combos2 l).Nodup := by
  induction l with
  | nil => simp [combos2]
  | cons a l ih =>
    rw [List.nodup_cons] at h
    rw [combos2, List.nodup_append]
    refine ⟨List.Nodup.map ?_ h.2, ih h.2, ?_⟩
    · intro x y hxy; simpa using hxy
    · intro q hq hq'
      obtain ⟨b, _, rfl⟩ := List.mem_map.mp hq
      exact h.1 (mem_combos2_parts hq').1

theorem length_combos2 (l : List ℤ) :
    (combos2 l).length = Nat.choose l.length 2 := by
  induction l with
  | nil => simp [combos2]
  | cons a l ih =>
    rw [combos2, List.length_append, List.length_map, ih, List.length_cons]
    rw [Nat.choose_succ_succ l.length 1, Nat.choose_one_right]

theorem flushGroup_fst {g : List ℤ} (hs : List.Sorted (· < ·) g)
    (fp : Cnt × PCnt) (i : ℤ) :
    (flushGroup g fp).1 i = fp.1 i + if i ∈ g then 1 else 0 := by
  by_cases hg : g = []
  · subst hg; simp [flushGroup]
  · rw [flushGroup, if_neg hg]
    exact foldl_bumpItem_apply g hs.nodup fp.1 i

theorem flushGroup_snd {g : List ℤ} (hs : List.Sorted (· < ·) g)
    (fp : Cnt × PCnt) (a b : ℤ) :
    (flushGroup g fp).2 (a, b) =
      fp.2 (a, b) + if a ∈ g ∧ b ∈ g ∧ a < b then 1 else 0 := by
  by_cases hg : g = []
  · subst hg; simp [flushGroup]
  · rw [flushGroup, if_neg hg]
    exact (foldl_bumpPair_apply (combos2 g) (nodup_combos2 hs.nodup) fp.2 (a, b)).trans
      (by simp only [mem_combos2 hs a b])

/-! ### Claim C1 : the similarity formula and its zero guards -/

/-- C1: for all integer inputs, `cosine_style_sim` returns
`count_ab / sqrt(freq_a * freq_b)` when all three inputs are strictly
positive and returns exactly `0.0` in every other case; in the real-number
model of float arithmetic it is a total function, so zero denominators
never raise. -/
theorem c1_cosine_style_sim_spec (c fa fb : ℤ) :
    (0 < c → 0 < fa → 0 < fb →
      cosine_style_sim c fa fb = (c : ℝ) / Real.sqrt ((fa : ℝ) * (fb : ℝ))) ∧
    (c ≤ 0 ∨ fa ≤ 0 ∨ fb ≤ 0 → cosine_style_sim c fa fb = 0) := by
  constructor
  · intro hc hfa hfb
    rw [cosine_style_sim, if_neg (by omega), if_neg (by omega)]
  · intro h
    rw [cosine_style_sim]
    by_cases hc : c ≤ 0
    · rw [if_pos hc]
    · rw [if_neg hc, if_pos (by omega)]

/-- Witness for C1 at the spec's own test point `(10, 100, 25)` and at a
zero numerator. -/
theorem c1_cosine_style_sim_spec_witness :
    cosine_style_sim 10 100 25 =
      ((10 : ℤ) : ℝ) / Real.sqrt (((100 : ℤ) : ℝ) * ((25 : ℤ) : ℝ)) ∧
    cosine_style_sim 0 100 25 = 0 :=
  ⟨(c1_cosine_style_sim_spec 10 100 25).1 (by norm_num) (by norm_num) (by norm_num),
   (c1_cosine_style_sim_spec 0 100 25).2 (Or.inl le_rfl)⟩

/-! ### Claim C2 : one flush per basket -/

/-- C2: for a basket of `n` distinct items (modelled by its strictly
sorted element list), one `_flush_group` call increments the frequency of
exactly the basket's items by one each, increments exactly `C(n,2)`
distinct pair counters by one each, every incremented pair key being
`(min, max)` of two distinct members, and an empty basket changes
nothing. -/
theorem c2_flush_group_spec (g : List ℤ) (hg : List.Sorted (· < ·) g)
    (fp : Cnt × PCnt) :
    (∀ i : ℤ, (flushGroup g fp).1 i = fp.1 i + if i ∈ g then 1 else 0) ∧
    (∀ a b : ℤ, (flushGroup g fp).2 (a, b) =
      fp.2 (a, b) + if a ∈ g ∧ b ∈ g ∧ a < b then 1 else 0) ∧
    (combos2 g).length = Nat.choose g.length 2 ∧
    (combos2 g).Nodup ∧
    (∀ q ∈ combos2 g, q.1 ∈ g ∧ q.2 ∈ g ∧ q.1 < q.2) ∧
    (g = [] → flushGroup g fp = fp) := by
  refine ⟨fun i => flushGroup_fst hg fp i, fun a b => flushGroup_snd hg fp a b,
    length_combos2 g, nodup_combos2 hg.nodup, ?_, ?_⟩
  · intro q hq
    have hp := mem_combos2_parts hq
    have := (mem_combos2 hg q.1 q.2).mp (by simpa using hq)
    exact ⟨hp.1, hp.2, this.2.2⟩
  · intro h; subst h; simp [flushGroup]

/-- Witness for C2 on the basket `{10, 20, 30}` and empty counters,
evaluated at the item `20` and the pair `(10, 20)`. -/
theorem c2_flush_group_spec_witness :
    (flushGroup [10, 20, 30] (fun _ => 0, fun _ => 0)).1 20 =
      (0 : ℕ) + (if (20 : ℤ) ∈ [(10 : ℤ), 20, 30] then 1 else 0) ∧
    (flushGroup [10, 20, 30] (fun _ => 0, fun _ => 0)).2 (10, 20) =
      (0 : ℕ) + (if (10 : ℤ) ∈ [(10 : ℤ), 20, 30] ∧ (20 : ℤ) ∈ [(10 : ℤ), 20, 30] ∧
        (10 : ℤ) < 20 then 1 else 0) ∧
    (combos2 [10, 20, 30]).length = Nat.choose 3 2 ∧
    (combos2 [10, 20, 30]).Nodup :=
  ⟨(c2_flush_group_spec [10, 20, 30] (by decide) (fun _ => 0, fun _ => 0)).1 20,
   (c2_flush_group_spec [10, 20, 30] (by decide) (fun _ => 0, fun _ => 0)).2.1 10 20,
   (c2_flush_group_spec [10, 20, 30] (by decide) (fun _ => 0, fun _ => 0)).2.2.1,
   (c2_flush_group_spec [10, 20, 30] (by decide) (fun _ => 0, fun _ => 0)).2.2.2.1⟩

/-! ### Association-list lemmas -/

theorem lookupA_updateA_self {β : Type} (k : ℤ) (v : β) (l : List (ℤ × β)) :
    lookupA k (updateA k v l) = some v := by
  induction l with
  | nil => simp [updateA, lookupA]
  | cons e rest ih =>
    rw [updateA]
    by_cases h : k = e.1
    · rw [if_pos h, lookupA, if_pos rfl]
    · rw [if_neg h, lookupA, if_neg h]; exact ih

theorem lookupA_updateA_ne {β : Type} {k k' : ℤ} (h : k ≠ k') (v : β)
    (l : List (ℤ × β)) : lookupA k (updateA k' v l) = lookupA k l := by
  induction l with
  | nil => simp [updateA, lookupA, h]
  | cons e rest ih =>
    rw [updateA]
    by_cases he : k' = e.1
    · rw [if_pos he, lookupA, if_neg (by omega), lookupA, if_neg (by omega)]
    · rw [if_neg he, lookupA, lookupA]
      by_cases hk : k = e.1
      · rw [if_pos hk, if_pos hk]
      · rw [if_neg hk, if_neg hk]; exact ih

theorem lookupA_append {β : Type} (k : ℤ) (l₁ l₂ : List (ℤ × β)) :
    lookupA k (l₁ ++ l₂) =
      match lookupA k l₁ with
      | some v => some v
      | none => lookupA k l₂ := by
  induction l₁ with
  | nil => simp [lookupA]
  | cons e rest ih =>
    rw [List.cons_append, lookupA, lookupA]
    by_cases h : k = e.1
    · rw [if_pos h, if_pos h]
    · rw [if_neg h, if_neg h]; exact ih

theorem storedScore_nil (a b : ℤ) : storedScore [] a b = 0 := rfl

/-- How one `add_edge` call changes the stored score of its own pair:
dropped when non-positive, otherwise max-merged with the previous value. -/
theorem storedScore_addEdge_self (a b : ℤ) (s : ℝ) (g : Graph) :
    storedScore (addEdge a b s g) a b =
      if s ≤ 0 then storedScore g a b else max (storedScore g a b) s := by
  by_cases h : s ≤ 0
  · rw [if_pos h, addEdge, if_pos h]
  · rw [if_neg h, addEdge, if_neg h]
    have hinner :
        ((lookupA a (if (lookupA a g).isSome then g
          else g ++ [(a, ([] : Inner))])).getD []) = (lookupA a g).getD [] := by
      by_cases ha : (lookupA a g).isSome
      · rw [if_pos ha]
      · rw [if_neg ha]
        cases hla : lookupA a g with
        | some v => rw [hla] at ha; exact absurd rfl ha
        | none => rw [lookupA_append, hla]; simp [lookupA]
    dsimp only
    rw [hinner]
    by_cases hlt : (lookupA b ((lookupA a g).getD [])).getD 0 < s
    · rw [if_pos hlt, storedScore, lookupA_updateA_self, Option.getD_some,
        lookupA_updateA_self, Option.getD_some, storedScore,
        max_eq_right (le_of_lt hlt)]
    · rw [if_neg hlt, storedScore, hinner, storedScore,
        max_eq_left (not_lt.mp hlt)]

/-! ### Claim C3 : idempotent max-merge of edge insertions -/

theorem storedScore_foldl_addEdge (a b : ℤ) (ss : List ℝ) (g : Graph) :
    storedScore (ss.foldl (fun g' s => addEdge a b s g') g) a b =
      ss.foldl (fun m s => if s ≤ 0 then m else max m s) (storedScore g a b) := by
  induction ss generalizing g with
  | nil => rfl
  | cons s ss ih =>
    rw [List.foldl_cons, List.foldl_cons, ih, storedScore_addEdge_self]

theorem foldMax_ge_init (ss : List ℝ) (m0 : ℝ) :
    m0 ≤ ss.foldl (fun m s => if s ≤ 0 then m else max m s) m0 := by
  induction ss generalizing m0 with
  | nil => exact le_rfl
  | cons s ss ih =>
    rw [List.foldl_cons]
    refine le_trans ?_ (ih _)
    by_cases h : s ≤ 0
    · rw [if_pos h]
    · rw [if_neg h]; exact le_max_left _ _

theorem foldMax_ge_mem (ss : List ℝ) :
    ∀ (m0 : ℝ) {s : ℝ}, s ∈ ss → 0 < s →
      s ≤ ss.foldl (fun m s => if s ≤ 0 then m else max m s) m0 := by
  induction ss with
  | nil => intro m0 s hs _; simp at hs
  | cons t ss ih =>
    intro m0 s hs hpos
    rw [List.foldl_cons]
    rcases List.mem_cons.mp hs with h1 | h2
    · subst h1
      refine le_trans ?_ (foldMax_ge_init _ _)
      rw [if_neg (not_le.mpr hpos)]
      exact le_max_right _ _
    · exact ih _ h2 hpos

theorem foldMax_mem_or_init (ss : List ℝ) (m0 : ℝ) :
    ss.foldl (fun m s => if s ≤ 0 then m else max m s) m0 = m0 ∨
      ss.foldl (fun m s => if s ≤ 0 then m else max m s) m0 ∈ ss := by
  induction ss generalizing m0 with
  | nil => exact Or.inl rfl
  | cons t ss ih =>
    rw [List.foldl_cons]
    by_cases h : t ≤ 0
    · rw [if_pos h]
      rcases ih m0 with h1 | h2
      · exact Or.inl h1
      · exact Or.inr (List.mem_cons_of_mem _ h2)
    · rw [if_neg h]
      rcases ih (max m0 t) with h1 | h2
      · rcases max_choice m0 t with hm | hm
        · exact Or.inl (h1.trans hm)
        · exact Or.inr (by rw [h1, hm]; exact List.mem_cons_self _ _)
      · exact Or.inr (List.mem_cons_of_mem _ h2)

/-- C3: folding a list of insertions for one ordered pair into the empty
score graph stores exactly the maximum of the positive inserted scores,
the result is invariant under permutation of the insertion order, and a
single insertion never decreases the stored score of its pair. -/
theorem c3_add_edge_max_merge (a b : ℤ) (ss : List ℝ) (h : ∃ s ∈ ss, 0 < s) :
    (∃ m ∈ ss, 0 < m ∧ (∀ s ∈ ss, 0 < s → s ≤ m) ∧
      storedScore (ss.foldl (fun g s => addEdge a b s g) []) a b = m) ∧
    (∀ ss' : List ℝ, ss.Perm ss' →
      storedScore (ss.foldl (fun g s => addEdge a b s g) []) a b =
        storedScore (ss'.foldl (fun g s => addEdge a b s g) []) a b) ∧
    (∀ (g : Graph) (s : ℝ),
      storedScore g a b ≤ storedScore (addEdge a b s g) a b) := by
  obtain ⟨s0, hs0m, hs0p⟩ := h
  have key : ∀ ts : List ℝ, s0 ∈ ts →
      (storedScore (ts.foldl (fun g s => addEdge a b s g) []) a b ∈ ts ∧
       0 < storedScore (ts.foldl (fun g s => addEdge a b s g) []) a b ∧
       ∀ s ∈ ts, 0 < s → s ≤
         storedScore (ts.foldl (fun g s => addEdge a b s g) []) a b) := by
    intro ts hmem
    rw [storedScore_foldl_addEdge, storedScore_nil]
    have hpos : 0 < ts.foldl (fun m s => if s ≤ 0 then m else max m s) 0 :=
      lt_of_lt_of_le hs0p (foldMax_ge_mem ts 0 hmem hs0p)
    refine ⟨?_, hpos, fun s hs hp => foldMax_ge_mem ts 0 hs hp⟩
    rcases foldMax_mem_or_init ts 0 with h1 | h2
    · rw [h1] at hpos; exact absurd hpos (lt_irrefl 0)
    · exact h2
  obtain ⟨hm, hp, hb⟩ := key ss hs0m
  refine ⟨⟨_, hm, hp, hb, rfl⟩, ?_, ?_⟩
  · intro ss' hperm
    obtain ⟨hm', hp', hb'⟩ := key ss' (hperm.mem_iff.mp hs0m)
    exact le_antisymm (hb' _ (hperm.mem_iff.mp hm) hp) (hb _ (hperm.mem_iff.mpr hm') hp')
  · intro g s
    rw [storedScore_addEdge_self]
    by_cases hs : s ≤ 0
    · rw [if_pos hs]
    · rw [if_neg hs]; exact le_max_left _ _

/-- Witness for C3 on the spec's example scores `[0.3, 0.9, 0.1]`: a swap
of the first two insertions leaves the stored score unchanged, and one
extra lower-scoring insertion does not decrease it. -/
theorem c3_add_edge_max_merge_witness :
    storedScore (([(3 : ℝ)/10, 9/10, 1/10].foldl
        (fun g s => addEdge 1 2 s g) [])) 1 2 =
      storedScore (([(9 : ℝ)/10, 3/10, 1/10].foldl
        (fun g s => addEdge 1 2 s g) [])) 1 2 ∧
    storedScore (([(3 : ℝ)/10, 9/10, 1/10].foldl
        (fun g s => addEdge 1 2 s g) [])) 1 2 ≤
      storedScore (addEdge 1 2 ((1 : ℝ)/10)
        (([(3 : ℝ)/10, 9/10, 1/10].foldl (fun g s => addEdge 1 2 s g) []))) 1 2 :=
  ⟨(c3_add_edge_max_merge 1 2 [(3 : ℝ)/10, 9/10, 1/10]
      ⟨9/10, by simp, by norm_num⟩).2.1 [(9 : ℝ)/10, 3/10, 1/10]
      (List.Perm.swap ((9 : ℝ)/10) ((3 : ℝ)/10) [(1 : ℝ)/10]),
   (c3_add_edge_max_merge 1 2 [(3 : ℝ)/10, 9/10, 1/10]
      ⟨9/10, by simp, by norm_num⟩).2.2 _ ((1 : ℝ)/10)⟩

/-! ### Claim C7 : serving lookup -/

/-- C7: for an item absent from the loaded map the serving lookup returns
the empty list with `available = false` (total, never raising); for a
present item it returns the first `min(k, length)` stored neighbours in
stored order with `available = true`. -/
theorem c7_recommend_spec (M : List (ℤ × List ℤ)) (itemid : ℤ) (k : ℕ) :
    (lookupA itemid M = none → recommend M itemid k = ([], false)) ∧
    (∀ l : List ℤ, lookupA itemid M = some l →
      recommend M itemid k = (l.take k, true) ∧
      (l.take k).length = min k l.length ∧
      l.take k ++ l.drop k = l) := by
  constructor
  · intro h
    rw [recommend, h]
    simp
  · intro l h
    rw [recommend, h]
    exact ⟨by simp, List.length_take k l, List.take_append_drop k l⟩

/-- Witness for C7: an absent item and a present one on a concrete map. -/
theorem c7_recommend_spec_witness :
    recommend [((5 : ℤ), [(1 : ℤ), 2, 3])] 7 2 = ([], false) ∧
    recommend [((5 : ℤ), [(1 : ℤ), 2, 3])] 5 2 = ([1, 2], true) :=
  ⟨(c7_recommend_spec [((5 : ℤ), [(1 : ℤ), 2, 3])] 7 2).1 rfl,
   by
    have := ((c7_recommend_spec [((5 : ℤ), [(1 : ℤ), 2, 3])] 5 2).2
      [(1 : ℤ), 2, 3] rfl).1
    simpa using this⟩

/-! ### Claim C8 : configuration is not validated (claim corrected) -/

/-- C8 counterexample: constructing a configuration with `topk = 0` and
negative weights succeeds and returns those invalid values unchanged —
configuration construction does not fail, contrary to the claim. -/
theorem c8_config_counterexample :
    (mkConfig (some 0) (some (-1)) (some (-2))).topk = 0 ∧
    (mkConfig (some 0) (some (-1)) (some (-2))).view_weight < 0 ∧
    (mkConfig (some 0) (some (-1)) (some (-2))).buy_weight < 0 := by
  refine ⟨rfl, ?_, ?_⟩ <;> norm_num [mkConfig]

/-- C8 amended: configuration construction performs no validation — any
supplied `topk` and weights, including non-positive and negative ones,
are accepted verbatim, and only unset values fall back to the defaults
`(50, 1.0, 3.0)`. -/
theorem c8_config_no_validation (t : ℤ) (v b : ℝ) :
    mkConfig (some t) (some v) (some b) = ⟨t, v, b⟩ ∧
    mkConfig none none none = ⟨50, 1, 3⟩ :=
  ⟨rfl, rfl⟩

/-! ### More association-list lemmas -/

theorem updateA_of_lookupA_none {β : Type} {k : ℤ} {l : List (ℤ × β)}
    (h : lookupA k l = none) (v : β) : updateA k v l = l ++ [(k, v)] := by
  induction l with
  | nil => rfl
  | cons e rest ih =>
    rw [lookupA] at h
    by_cases hk : k = e.1
    · rw [if_pos hk] at h; exact absurd h (by simp)
    · rw [if_neg hk] at h
      rw [updateA, if_neg hk, List.cons_append, ih h]

theorem keys_updateA_of_lookupA_some {β : Type} {k : ℤ} {l : List (ℤ × β)} {w : β}
    (h : lookupA k l = some w) (v : β) :
    (updateA k v l).map Prod.fst = l.map Prod.fst := by
  induction l with
  | nil => simp [lookupA] at h
  | cons e rest ih =>
    rw [lookupA] at h
    by_cases hk : k = e.1
    · rw [updateA, if_pos hk]
      simp [hk]
    · rw [if_neg hk] at h
      rw [updateA, if_neg hk, List.map_cons, List.map_cons, ih h]

theorem mem_updateA {β : Type} {k : ℤ} {v : β} {l : List (ℤ × β)} {q : ℤ × β}
    (h : q ∈ updateA k v l) : q ∈ l ∨ q = (k, v) := by
  induction l with
  | nil => simp [updateA] at h; exact Or.inr h
  | cons e rest ih =>
    rw [updateA] at h
    by_cases hk : k = e.1
    · rw [if_pos hk] at h
      rcases List.mem_cons.mp h with h1 | h2
      · exact Or.inr h1
      · exact Or.inl (List.mem_cons_of_mem _ h2)
    · rw [if_neg hk] at h
      rcases List.mem_cons.mp h with h1 | h2
      · exact Or.inl (h1 ▸ List.mem_cons_self _ _)
      · rcases ih h2 with h3 | h4
        · exact Or.inl (List.mem_cons_of_mem _ h3)
        · exact Or.inr h4

theorem updateA_ne_nil {β : Type} (k : ℤ) (v : β) (l : List (ℤ × β)) :
    updateA k v l ≠ [] := by
  cases l with
  | nil => simp [updateA]
  | cons e rest =>
    rw [updateA]
    by_cases hk : k = e.1
    · rw [if_pos hk]; simp
    · rw [if_neg hk]; simp

theorem mem_of_lookupA_some {β : Type} {k : ℤ} {l : List (ℤ × β)} {v : β}
    (h : lookupA k l = some v) : (k, v) ∈ l := by
  induction l with
  | nil => simp [lookupA] at h
  | cons e rest ih =>
    rw [lookupA] at h
    by_cases hk : k = e.1
    · rw [if_pos hk] at h
      refine List.mem_cons.mpr (Or.inl ?_)
      rw [hk, ← Option.some.inj h]
    · rw [if_neg hk] at h
      exact List.mem_cons_of_mem _ (ih h)

theorem lookupA_of_mem_nodup {β : Type} {l : List (ℤ × β)}
    (hnd : (l.map Prod.fst).Nodup) {k : ℤ} {v : β} (h : (k, v) ∈ l) :
    lookupA k l = some v := by
  induction l with
  | nil => simp at h
  | cons e rest ih =>
    rw [List.map_cons, List.nodup_cons] at hnd
    rcases List.mem_cons.mp h with h1 | h2
    · rw [lookupA, if_pos (by rw [← h1])]
      rw [← h1]
    · have hk : k ≠ e.1 := by
        intro hkk
        exact hnd.1 (hkk ▸ List.mem_map_of_mem Prod.fst h2)
      rw [lookupA, if_neg hk]
      exact ih hnd.2 h2

theorem lookupA_eq_none_iff {β : Type} {k : ℤ} {l : List (ℤ × β)} :
    lookupA k l = none ↔ k ∉ l.map Prod.fst := by
  induction l with
  | nil => simp [lookupA]
  | cons e rest ih =>
    rw [lookupA, List.map_cons]
    by_cases hk : k = e.1
    · rw [if_pos hk]; simp [hk]
    · rw [if_neg hk]
      simp only [List.mem_cons, hk, false_or]
      exact ih

/-! ### Shape of a single `add_edge` call -/

theorem addEdge_nonpos {s : ℝ} (h : s ≤ 0) (a b : ℤ) (g : Graph) :
    addEdge a b s g = g := by
  rw [addEdge, if_pos h]

theorem updateA_append_self {β : Type} {k : ℤ} {g : List (ℤ × β)}
    (hla : lookupA k g = none) (v w : β) :
    updateA k v (g ++ [(k, w)]) = g ++ [(k, v)] := by
  induction g with
  | nil => simp [updateA]
  | cons e rest ih =>
    rw [lookupA] at hla
    by_cases hk : k = e.1
    · rw [if_pos hk] at hla; exact absurd hla (by simp)
    · rw [if_neg hk] at hla
      rw [List.cons_append, updateA, if_neg hk, List.cons_append, ih hla]

/-- Evaluation of `add_edge` for a positive score when the source item is
new: `setdefault` appends it and the update always fires (`prev = 0`). -/
theorem addEdge_of_lookupA_none {a : ℤ} {g : Graph} {s : ℝ} (hs : 0 < s)
    (hla : lookupA a g = none) (b : ℤ) :
    addEdge a b s g = g ++ [(a, [(b, s)])] := by
  rw [addEdge, if_neg (not_le.mpr hs), hla]
  simp only [Option.isSome_none, Bool.false_eq_true, if_false]
  have hlk : lookupA a (g ++ [(a, ([] : Inner))]) = some [] := by
    rw [lookupA_append, hla]; simp [lookupA]
  rw [hlk]
  simp only [Option.getD_some]
  rw [show lookupA b ([] : Inner) = none from rfl]
  simp only [Option.getD_none, if_pos hs]
  rw [show updateA b s ([] : Inner) = [(b, s)] from rfl,
    updateA_append_self hla]

/-- Evaluation of `add_edge` for a positive score when the source item
already has an adjacency dictionary. -/
theorem addEdge_of_lookupA_some {a : ℤ} {g : Graph} {inner : Inner} {s : ℝ}
    (hs : 0 < s) (hla : lookupA a g = some inner) (b : ℤ) :
    addEdge a b s g =
      if (lookupA b inner).getD 0 < s
        then updateA a (updateA b s inner) g else g := by
  rw [addEdge, if_neg (not_le.mpr hs), hla]
  simp only [Option.isSome_some, if_true]
  rw [hla]
  simp only [Option.getD_some]

theorem lookupA_addEdge_ne {a x : ℤ} (hx : x ≠ a) (b : ℤ) (s : ℝ) (g : Graph) :
    lookupA x (addEdge a b s g) = lookupA x g := by
  by_cases hs : s ≤ 0
  · rw [addEdge_nonpos hs]
  · have hs' : 0 < s := not_le.mp hs
    cases hla : lookupA a g with
    | none =>
      rw [addEdge_of_lookupA_none hs' hla, lookupA_append]
      cases hxg : lookupA x g with
      | some v => rfl
      | none => simp [lookupA, hx]
    | some inn =>
      rw [addEdge_of_lookupA_some hs' hla]
      by_cases hlt : (lookupA b inn).getD 0 < s
      · rw [if_pos hlt, lookupA_updateA_ne hx]
      · rw [if_neg hlt]

theorem lookupA_addEdge_self_isSome {a : ℤ} (b : ℤ) {s : ℝ} (hs : 0 < s)
    (g : Graph) : (lookupA a (addEdge a b s g)).isSome := by
  cases hla : lookupA a g with
  | none =>
    rw [addEdge_of_lookupA_none hs hla, lookupA_append, hla]
    simp [lookupA]
  | some inn =>
    rw [addEdge_of_lookupA_some hs hla]
    by_cases hlt : (lookupA b inn).getD 0 < s
    · rw [if_pos hlt, lookupA_updateA_self]; rfl
    · rw [if_neg hlt, hla]; rfl

theorem lookupA_addEdge_isSome_mono (a b : ℤ) (s : ℝ) (g : Graph) {x : ℤ}
    (h : (lookupA x g).isSome) : (lookupA x (addEdge a b s g)).isSome := by
  by_cases hx : x = a
  · subst hx
    by_cases hs : s ≤ 0
    · rw [addEdge_nonpos hs]; exact h
    · exact lookupA_addEdge_self_isSome b (not_le.mp hs) g
  · rw [lookupA_addEdge_ne hx]; exact h

theorem mem_inner_addEdge {a b : ℤ} {s : ℝ} {g : Graph} {x : ℤ} {inner' : Inner}
    (h : lookupA x (addEdge a b s g) = some inner') {q : ℤ × ℝ} (hq : q ∈ inner') :
    (∃ inn, lookupA x g = some inn ∧ q ∈ inn) ∨ (x = a ∧ q = (b, s) ∧ 0 < s) := by
  by_cases hs : s ≤ 0
  · rw [addEdge_nonpos hs] at h; exact Or.inl ⟨inner', h, hq⟩
  · have hs' : 0 < s := not_le.mp hs
    by_cases hx : x = a
    · subst hx
      cases hla : lookupA x g with
      | none =>
        rw [addEdge_of_lookupA_none hs' hla, lookupA_append, hla] at h
        simp only [lookupA, if_pos rfl] at h
        rw [← Option.some.inj h] at hq
        have : q = (b, s) := by simpa using hq
        exact Or.inr ⟨rfl, this, hs'⟩
      | some inn =>
        rw [addEdge_of_lookupA_some hs' hla] at h
        by_cases hlt : (lookupA b inn).getD 0 < s
        · rw [if_pos hlt, lookupA_updateA_self] at h
          rw [← Option.some.inj h] at hq
          rcases mem_updateA hq with hmem | heq
          · exact Or.inl ⟨inn, rfl, hmem⟩
          · exact Or.inr ⟨rfl, heq, hs'⟩
        · rw [if_neg hlt, hla] at h; exact Or.inl ⟨inner', h, hq⟩
    · rw [lookupA_addEdge_ne hx] at h; exact Or.inl ⟨inner', h, hq⟩

/-- The non-symmetric part of the graph invariant is preserved by each
single `add_edge` call. -/
theorem GInvB_addEdge (a b : ℤ) (s : ℝ) {g : Graph}
    (h1 : (g.map Prod.fst).Nodup)
    (h2 : ∀ e ∈ g, (e.2.map Prod.fst).Nodup ∧ e.2 ≠ [] ∧ ∀ q ∈ e.2, 0 < q.2) :
    ((addEdge a b s g).map Prod.fst).Nodup ∧
      ∀ e ∈ addEdge a b s g,
        (e.2.map Prod.fst).Nodup ∧ e.2 ≠ [] ∧ ∀ q ∈ e.2, 0 < q.2 := by
  by_cases hs : s ≤ 0
  · rw [addEdge_nonpos hs]; exact ⟨h1, h2⟩
  · have hs' : 0 < s := not_le.mp hs
    cases hla : lookupA a g with
    | none =>
      rw [addEdge_of_lookupA_none hs' hla]
      constructor
      · rw [List.map_append, List.nodup_append]
        refine ⟨h1, by simp, ?_⟩
        intro x hxg hxa
        simp only [List.map_cons, List.map_nil, List.mem_cons,
          List.not_mem_nil, or_false] at hxa
        exact (lookupA_eq_none_iff.mp hla) (hxa ▸ hxg)
      · intro e he
        rcases List.mem_append.mp he with hg | hnew
        · exact h2 e hg
        · have he' : e = (a, [(b, s)]) := by simpa using hnew
          subst he'
          refine ⟨by simp, by simp, ?_⟩
          intro q hq
          have : q = (b, s) := by simpa using hq
          rw [this]; exact hs'
    | some inn =>
      rw [addEdge_of_lookupA_some hs' hla]
      by_cases hlt : (lookupA b inn).getD 0 < s
      · rw [if_pos hlt]
        have hinn := h2 (a, inn) (mem_of_lookupA_some hla)
        constructor
        · rw [keys_updateA_of_lookupA_some hla]; exact h1
        · intro e he
          rcases mem_updateA he with hg | hnew
          · exact h2 e hg
          · subst hnew
            refine ⟨?_, updateA_ne_nil _ _ _, ?_⟩
            · cases hlb : lookupA b inn with
              | some w =>
                rw [keys_updateA_of_lookupA_some hlb]; exact hinn.1
              | none =>
                rw [updateA_of_lookupA_none hlb, List.map_append,
                  List.nodup_append]
                refine ⟨hinn.1, by simp, ?_⟩
                intro x hx hxb
                simp only [List.map_cons, List.map_nil, List.mem_cons,
                  List.not_mem_nil, or_false] at hxb
                exact (lookupA_eq_none_iff.mp hlb) (hxb ▸ hx)
            · intro q hq
              rcases mem_updateA hq with hold | hqn
              · exact hinn.2.2 q hold
              · rw [hqn]; exact hs'
      · rw [if_neg hlt]; exact ⟨h1, h2⟩

/-- The full graph invariant is preserved by the symmetric pair of
`add_edge` calls made for each pair row. -/
theorem GInv_addEdgePair (a b : ℤ) (s : ℝ) {g : Graph} (h : GInv g) :
    GInv (addEdgePair a b s g) := by
  obtain ⟨h1, h2, h3⟩ := h
  by_cases hs : s ≤ 0
  · rw [addEdgePair, addEdge_nonpos hs, addEdge_nonpos hs]; exact ⟨h1, h2, h3⟩
  · have hs' : 0 < s := not_le.mp hs
    rw [addEdgePair]
    obtain ⟨h1', h2'⟩ := GInvB_addEdge a b s h1 h2
    obtain ⟨h1'', h2''⟩ := GInvB_addEdge b a s h1' h2'
    refine ⟨h1'', h2'', ?_⟩
    intro e he q hq
    have he' : lookupA e.1 (addEdge b a s (addEdge a b s g)) = some e.2 :=
      lookupA_of_mem_nodup h1'' he
    rcases mem_inner_addEdge he' hq with ⟨inn1, hl1, hq1⟩ | ⟨_, hqv, _⟩
    · rcases mem_inner_addEdge hl1 hq1 with ⟨inn0, hl0, hq0⟩ | ⟨_, hqv0, _⟩
      · have hsym := h3 (e.1, inn0) (mem_of_lookupA_some hl0) q hq0
        exact lookupA_addEdge_isSome_mono _ _ _ _
          (lookupA_addEdge_isSome_mono _ _ _ _ hsym)
      · rw [hqv0]
        exact lookupA_addEdge_self_isSome a hs' (addEdge a b s g)
    · rw [hqv]
      exact lookupA_addEdge_isSome_mono _ _ _ _
        (lookupA_addEdge_self_isSome b hs' g)

theorem GInv_nil : GInv [] := ⟨by simp, by simp, by simp⟩

theorem GInv_foldl (contrib : Graph → (ℤ × ℤ × ℤ) → Graph)
    (hc : ∀ (g : Graph) (r : ℤ × ℤ × ℤ), GInv g → GInv (contrib g r)) :
    ∀ (rows : List (ℤ × ℤ × ℤ)) (g : Graph), GInv g →
      GInv (rows.foldl contrib g) := by
  intro rows
  induction rows with
  | nil => intro g hg; exact hg
  | cons r rows ih =>
    intro g hg
    rw [List.foldl_cons]
    exact ih _ (hc g r hg)

theorem GInv_buildScores (vf : ℤ → ℤ) (vp : List (ℤ × ℤ × ℤ)) (bf : ℤ → ℤ)
    (bp : List (ℤ × ℤ × ℤ)) (wv wb : ℝ) :
    GInv (buildScores vf vp bf bp wv wb) := by
  rw [buildScores]
  exact GInv_foldl _ (fun g r hg => GInv_addEdgePair _ _ _ hg) bp _
    (GInv_foldl _ (fun g r hg => GInv_addEdgePair _ _ _ hg) vp _ GInv_nil)

theorem lookupA_build_map (topk : ℕ) (k : ℤ) (g : Graph) :
    lookupA k (g.map (fun e => (e.1, ((sortDesc e.2).take topk).map Prod.fst))) =
      (lookupA k g).map (fun inn => ((sortDesc inn).take topk).map Prod.fst) := by
  induction g with
  | nil => rfl
  | cons e rest ih =>
    rw [List.map_cons, lookupA, lookupA]
    by_cases h : k = e.1
    · rw [if_pos h, if_pos h]; rfl
    · rw [if_neg h, if_neg h]; exact ih

/-- Concrete evaluation of the score graph for the one-row pair table
`[(1, 2, 1)]` with unit frequencies and weights `(1, 3)`: the similarity
is `1 / sqrt 1 = 1` and both directed edges are stored with score `1`. -/
theorem smallScores_eval :
    buildScores (fun _ => 1) [((1 : ℤ), (2 : ℤ), (1 : ℤ))] (fun _ => 0) [] 1 3 =
      [((1 : ℤ), [((2 : ℤ), (1 : ℝ))]), (2, [(1, 1)])] := by
  have hsim : cosine_style_sim 1 1 1 = 1 := by
    rw [cosine_style_sim, if_neg (by norm_num), if_neg (by norm_num)]
    norm_num
  have hfs : final_score 1 0 1 3 = 1 := by rw [final_score]; ring
  rw [buildScores, List.foldl_nil, List.foldl_cons, List.foldl_nil]
  show addEdgePair 1 2 (final_score (cosine_style_sim 1 1 1) 0 1 3) [] = _
  rw [hsim, hfs, addEdgePair, addEdge_of_lookupA_none one_pos (show lookupA 1 ([] : Graph) = none from rfl) 2,
    List.nil_append, addEdge_of_lookupA_none one_pos (by simp [lookupA]) 1]
  rfl

/-- Concrete evaluation of `build_topk` on the same input with
`topk = 1`. -/
theorem smallTopk_eval :
    build_topk (fun _ => 1) [((1 : ℤ), (2 : ℤ), (1 : ℤ))] (fun _ => 0) [] 1 1 3 =
      [((1 : ℤ), [(2 : ℤ)]), (2, [1])] := by
  rw [build_topk, smallScores_eval]
  rfl

theorem sortDesc_sorted (l : Inner) :
    List.Sorted (fun x y : ℤ × ℝ => y.2 ≤ x.2) (sortDesc l) := by
  haveI : IsTotal (ℤ × ℝ) (fun x y => y.2 ≤ x.2) := ⟨fun x y => le_total y.2 x.2⟩
  haveI : IsTrans (ℤ × ℝ) (fun x y => y.2 ≤ x.2) :=
    ⟨fun _ _ _ h1 h2 => le_trans h2 h1⟩
  exact List.sorted_insertionSort _ l

theorem sortDesc_perm (l : Inner) : (sortDesc l).Perm l :=
  List.perm_insertionSort _ l

/-! ### Claim C4 : Top-K lists are bounded and sorted by descending score -/

/-- C4: every neighbour list produced by `build_topk` holds at most
`topk` items, and the blended scores stored in the score graph for the
listed neighbours are non-increasing in list order. -/
theorem c4_topk_bounded_sorted (vf : ℤ → ℤ) (vp : List (ℤ × ℤ × ℤ))
    (bf : ℤ → ℤ) (bp : List (ℤ × ℤ × ℤ)) (topk : ℕ) (w_view w_buy : ℝ)
    (htopk : 0 < topk) (a : ℤ) (l : List ℤ)
    (h : lookupA a (build_topk vf vp bf bp topk w_view w_buy) = some l) :
    l.length ≤ topk ∧
    l.Pairwise (fun x y =>
      storedScore (buildScores vf vp bf bp w_view w_buy) a y ≤
      storedScore (buildScores vf vp bf bp w_view w_buy) a x) := by
  rw [build_topk, lookupA_build_map] at h
  cases hla : lookupA a (buildScores vf vp bf bp w_view w_buy) with
  | none => rw [hla] at h; exact absurd h (by simp)
  | some inner =>
    rw [hla] at h
    have hl : l = ((sortDesc inner).take topk).map Prod.fst :=
      (Option.some.inj h).symm
    obtain ⟨h1, h2, h3⟩ := GInv_buildScores vf vp bf bp w_view w_buy
    have hinn := h2 (a, inner) (mem_of_lookupA_some hla)
    have hscore : ∀ q ∈ (sortDesc inner).take topk,
        storedScore (buildScores vf vp bf bp w_view w_buy) a q.1 = q.2 := by
      intro q hq
      have hq2 : q ∈ inner :=
        (sortDesc_perm inner).mem_iff.mp (List.take_subset _ _ hq)
      rw [storedScore, hla, Option.getD_some,
        lookupA_of_mem_nodup hinn.1 hq2, Option.getD_some]
    constructor
    · rw [hl, List.length_map]
      exact List.length_take_le _ _
    · rw [hl, List.pairwise_map]
      exact ((sortDesc_sorted inner).take).imp_of_mem
        (fun hx hy hxy => by
          rw [hscore _ hx, hscore _ hy]; exact hxy)

/-- Witness for C4 on a one-pair input with `topk = 1`. -/
theorem c4_topk_bounded_sorted_witness :
    ([(2 : ℤ)] : List ℤ).length ≤ 1 ∧
    ([(2 : ℤ)] : List ℤ).Pairwise (fun x y =>
      storedScore (buildScores (fun _ => 1) [((1 : ℤ), (2 : ℤ), (1 : ℤ))]
        (fun _ => 0) [] 1 3) 1 y ≤
      storedScore (buildScores (fun _ => 1) [((1 : ℤ), (2 : ℤ), (1 : ℤ))]
        (fun _ => 0) [] 1 3) 1 x) :=
  c4_topk_bounded_sorted (fun _ => 1) [((1 : ℤ), (2 : ℤ), (1 : ℤ))]
    (fun _ => 0) [] 1 1 3 one_pos 1 [2]
    (by rw [smallTopk_eval]; simp [lookupA])

/-! ### Claim C6 : no empty entries, non-positive edges dropped -/

/-- C6: `add_edge` discards non-positive scores; an item all of whose
outgoing blended scores are non-positive is entirely absent from the
`build_topk` result; and when `topk` is positive every present key maps
to a non-empty neighbour list. -/
theorem c6_no_empty_entries (vf : ℤ → ℤ) (vp : List (ℤ × ℤ × ℤ))
    (bf : ℤ → ℤ) (bp : List (ℤ × ℤ × ℤ)) (topk : ℕ) (w_view w_buy : ℝ)
    (htopk : 0 < topk) :
    (∀ (a b : ℤ) (s : ℝ) (g : Graph), s ≤ 0 → addEdge a b s g = g) ∧
    ∀ a : ℤ,
      ((∀ b : ℤ, storedScore (buildScores vf vp bf bp w_view w_buy) a b ≤ 0) →
        lookupA a (build_topk vf vp bf bp topk w_view w_buy) = none) ∧
      ∀ l : List ℤ,
        lookupA a (build_topk vf vp bf bp topk w_view w_buy) = some l →
          l ≠ [] := by
  obtain ⟨h1, h2, h3⟩ := GInv_buildScores vf vp bf bp w_view w_buy
  refine ⟨fun a b s g hs => addEdge_nonpos hs a b g, fun a => ⟨?_, ?_⟩⟩
  · intro hall
    rw [build_topk, lookupA_build_map]
    cases hla : lookupA a (buildScores vf vp bf bp w_view w_buy) with
    | none => rfl
    | some inner =>
      exfalso
      have hinn := h2 (a, inner) (mem_of_lookupA_some hla)
      obtain ⟨q, hq⟩ := List.exists_mem_of_ne_nil inner hinn.2.1
      have hpos := hinn.2.2 q hq
      have hsc : storedScore (buildScores vf vp bf bp w_view w_buy) a q.1 = q.2 := by
        rw [storedScore, hla, Option.getD_some,
          lookupA_of_mem_nodup hinn.1 hq, Option.getD_some]
      exact absurd (hsc ▸ hall q.1) (not_le.mpr hpos)
  · intro l hl hnil
    rw [build_topk, lookupA_build_map] at hl
    cases hla : lookupA a (buildScores vf vp bf bp w_view w_buy) with
    | none => rw [hla] at hl; exact absurd hl (by simp)
    | some inner =>
      rw [hla] at hl
      have hinn := h2 (a, inner) (mem_of_lookupA_some hla)
      have hlen : inner.length ≠ 0 :=
        fun h0 => hinn.2.1 (List.length_eq_zero.mp h0)
      have hsd : (sortDesc inner).length = inner.length :=
        (sortDesc_perm inner).length_eq
      have hll : l.length = min topk (sortDesc inner).length := by
        rw [← Option.some.inj hl, List.length_map, List.length_take]
      rw [hnil, hsd] at hll
      simp only [List.length_nil] at hll
      omega

/-- Witness for C6: the item `3` (no edges) is absent, and item `1`'s
list is non-empty, on a one-pair input with `topk = 1`. -/
theorem c6_no_empty_entries_witness :
    lookupA 3 (build_topk (fun _ => 1) [((1 : ℤ), (2 : ℤ), (1 : ℤ))]
      (fun _ => 0) [] 1 1 3) = none ∧
    ([(2 : ℤ)] : List ℤ) ≠ [] :=
  ⟨((c6_no_empty_entries (fun _ => 1) [((1 : ℤ), (2 : ℤ), (1 : ℤ))]
      (fun _ => 0) [] 1 1 3 one_pos).2 3).1
      (fun b => by rw [storedScore, smallScores_eval]; simp [lookupA]),
   ((c6_no_empty_entries (fun _ => 1) [((1 : ℤ), (2 : ℤ), (1 : ℤ))]
      (fun _ => 0) [] 1 1 3 one_pos).2 1).2 [2]
      (by rw [smallTopk_eval]; simp [lookupA])⟩

/-! ### Claim C10 : closure of the Top-K map -/

/-- C10: every item id appearing inside a neighbour list of the
`build_topk` result is itself a key of that result, because each positive
contribution inserts both directed edges. -/
theorem c10_topk_closure (vf : ℤ → ℤ) (vp : List (ℤ × ℤ × ℤ))
    (bf : ℤ → ℤ) (bp : List (ℤ × ℤ × ℤ)) (topk : ℕ) (w_view w_buy : ℝ)
    (a : ℤ) (l : List ℤ)
    (h : lookupA a (build_topk vf vp bf bp topk w_view w_buy) = some l)
    (b : ℤ) (hb : b ∈ l) :
    ∃ l' : List ℤ,
      lookupA b (build_topk vf vp bf bp topk w_view w_buy) = some l' := by
  obtain ⟨h1, h2, h3⟩ := GInv_buildScores vf vp bf bp w_view w_buy
  rw [build_topk, lookupA_build_map] at h
  cases hla : lookupA a (buildScores vf vp bf bp w_view w_buy) with
  | none => rw [hla] at h; exact absurd h (by simp)
  | some inner =>
    rw [hla] at h
    have hl' : ((sortDesc inner).take topk).map Prod.fst = l :=
      Option.some.inj h
    have hlmem : b ∈ ((sortDesc inner).take topk).map Prod.fst := by
      rw [hl']; exact hb
    obtain ⟨q, hqmem, hqb⟩ := List.mem_map.mp hlmem
    have hq2 : q ∈ inner :=
      (sortDesc_perm inner).mem_iff.mp (List.take_subset _ _ hqmem)
    have hsome := h3 (a, inner) (mem_of_lookupA_some hla) q hq2
    rw [hqb] at hsome
    obtain ⟨inner', hinner'⟩ := Option.isSome_iff_exists.mp hsome
    refine ⟨((sortDesc inner').take topk).map Prod.fst, ?_⟩
    rw [build_topk, lookupA_build_map, hinner']
    rfl

/-- Witness for C10: the recommended neighbour `2` of item `1` is itself
a key of the map. -/
theorem c10_topk_closure_witness :
    ∃ l' : List ℤ,
      lookupA 2 (build_topk (fun _ => 1) [((1 : ℤ), (2 : ℤ), (1 : ℤ))]
        (fun _ => 0) [] 1 1 3) = some l' :=
  c10_topk_closure (fun _ => 1) [((1 : ℤ), (2 : ℤ), (1 : ℤ))]
    (fun _ => 0) [] 1 1 3 1 [2]
    (by rw [smallTopk_eval]; simp [lookupA]) 2 (by simp)

/-! ### Claim C5 : end-to-end scenario on three baskets (claim corrected) -/

/-- C5 counterexample: the pair `(20, 30)` occurs in two of the three
baskets (`{10,20,30}` and `{20,30}`), so its aggregated count is `2`, not
`1` as the claim states; consequently its similarity is
`2/sqrt(3*2)`, not `1/sqrt(3*2)`. -/
theorem c5_end_to_end_counterexample :
    (aggBaskets [[10, 20, 30], [10, 20], [20, 30]]
      (fun _ => 0, fun _ => 0)).2 (20, 30) = 2 ∧
    (aggBaskets [[10, 20, 30], [10, 20], [20, 30]]
      (fun _ => 0, fun _ => 0)).2 (20, 30) ≠ 1 := by
  refine ⟨by decide, by decide⟩

/-- C5 amended: aggregating the baskets `{10,20,30}`, `{10,20}`,
`{20,30}` yields item frequencies `{10:2, 20:3, 30:2}` and pair counts
`{(10,20):2, (10,30):1, (20,30):2}`; the similarity of `(10,20)` is
`2/sqrt 6`, strictly above the similarity `1/sqrt 4` of `(10,30)`, while
the similarity of `(20,30)` equals `2/sqrt 6` as well; and feeding these
counters to `build_topk` as a single view signal with weight `1.0` (buy
signal empty) gives, for any `K ≥ 2`, the entry `[20, 30]` for item
`10`. -/
theorem c5_end_to_end (K : ℕ) (hK : 2 ≤ K) :
    (aggBaskets [[10, 20, 30], [10, 20], [20, 30]] (fun _ => 0, fun _ => 0)).1 10 = 2 ∧
    (aggBaskets [[10, 20, 30], [10, 20], [20, 30]] (fun _ => 0, fun _ => 0)).1 20 = 3 ∧
    (aggBaskets [[10, 20, 30], [10, 20], [20, 30]] (fun _ => 0, fun _ => 0)).1 30 = 2 ∧
    (aggBaskets [[10, 20, 30], [10, 20], [20, 30]] (fun _ => 0, fun _ => 0)).2 (10, 20) = 2 ∧
    (aggBaskets [[10, 20, 30], [10, 20], [20, 30]] (fun _ => 0, fun _ => 0)).2 (10, 30) = 1 ∧
    (aggBaskets [[10, 20, 30], [10, 20], [20, 30]] (fun _ => 0, fun _ => 0)).2 (20, 30) = 2 ∧
    cosine_style_sim 2 2 3 = 2 / Real.sqrt 6 ∧
    cosine_style_sim 1 2 2 = 1 / Real.sqrt 4 ∧
    cosine_style_sim 2 3 2 = 2 / Real.sqrt 6 ∧
    1 / Real.sqrt 4 < 2 / Real.sqrt 6 ∧
    lookupA 10 (build_topk
      (fun i => ((aggBaskets [[10, 20, 30], [10, 20], [20, 30]]
        (fun _ => 0, fun _ => 0)).1 i : ℤ))
      [(10, 20, ((aggBaskets [[10, 20, 30], [10, 20], [20, 30]]
          (fun _ => 0, fun _ => 0)).2 (10, 20) : ℤ)),
       (10, 30, ((aggBaskets [[10, 20, 30], [10, 20], [20, 30]]
          (fun _ => 0, fun _ => 0)).2 (10, 30) : ℤ)),
       (20, 30, ((aggBaskets [[10, 20, 30], [10, 20], [20, 30]]
          (fun _ => 0, fun _ => 0)).2 (20, 30) : ℤ))]
      (fun _ => 0) [] K 1 3) = some [20, 30] := by
  have h10 : (aggBaskets [[10, 20, 30], [10, 20], [20, 30]]
      (fun _ => 0, fun _ => 0)).1 10 = 2 := by decide
  have h20 : (aggBaskets [[10, 20, 30], [10, 20], [20, 30]]
      (fun _ => 0, fun _ => 0)).1 20 = 3 := by decide
  have h30 : (aggBaskets [[10, 20, 30], [10, 20], [20, 30]]
      (fun _ => 0, fun _ => 0)).1 30 = 2 := by decide
  have hp12 : (aggBaskets [[10, 20, 30], [10, 20], [20, 30]]
      (fun _ => 0, fun _ => 0)).2 (10, 20) = 2 := by decide
  have hp13 : (aggBaskets [[10, 20, 30], [10, 20], [20, 30]]
      (fun _ => 0, fun _ => 0)).2 (10, 30) = 1 := by decide
  have hp23 : (aggBaskets [[10, 20, 30], [10, 20], [20, 30]]
      (fun _ => 0, fun _ => 0)).2 (20, 30) = 2 := by decide
  have e1 : cosine_style_sim 2 2 3 = 2 / Real.sqrt 6 := by
    rw [cosine_style_sim, if_neg (by norm_num), if_neg (by norm_num)]
    norm_num
  have e2 : cosine_style_sim 1 2 2 = 1 / Real.sqrt 4 := by
    rw [cosine_style_sim, if_neg (by norm_num), if_neg (by norm_num)]
    norm_num
  have e3 : cosine_style_sim 2 3 2 = 2 / Real.sqrt 6 := by
    rw [cosine_style_sim, if_neg (by norm_num), if_neg (by norm_num)]
    norm_num
  have hs6 : (0 : ℝ) < Real.sqrt 6 := Real.sqrt_pos.mpr (by norm_num)
  have hs4 : Real.sqrt 4 = 2 := by
    rw [show (4 : ℝ) = 2 ^ 2 by norm_num, Real.sqrt_sq (by norm_num)]
  have i1 : (1 : ℝ) / Real.sqrt 4 < 2 / Real.sqrt 6 := by
    rw [hs4, div_lt_div_iff₀ (by norm_num) hs6]
    have hlt : Real.sqrt 6 < 4 := (Real.sqrt_lt' (by norm_num)).mpr (by norm_num)
    nlinarith [hlt]
  have p1 : (0 : ℝ) < 2 / Real.sqrt 6 := div_pos (by norm_num) hs6
  have p2 : (0 : ℝ) < 1 / Real.sqrt 4 := by rw [hs4]; norm_num
  have ffs : ∀ x : ℝ, final_score x 0 1 3 = x := fun x => by rw [final_score]; ring
  have hv10 : ((aggBaskets [[10, 20, 30], [10, 20], [20, 30]]
      (fun _ => 0, fun _ => 0)).1 10 : ℤ) = 2 := by rw [h10]; rfl
  have hv20 : ((aggBaskets [[10, 20, 30], [10, 20], [20, 30]]
      (fun _ => 0, fun _ => 0)).1 20 : ℤ) = 3 := by rw [h20]; rfl
  have hv30 : ((aggBaskets [[10, 20, 30], [10, 20], [20, 30]]
      (fun _ => 0, fun _ => 0)).1 30 : ℤ) = 2 := by rw [h30]; rfl
  have hc12 : ((aggBaskets [[10, 20, 30], [10, 20], [20, 30]]
      (fun _ => 0, fun _ => 0)).2 (10, 20) : ℤ) = 2 := by rw [hp12]; rfl
  have hc13 : ((aggBaskets [[10, 20, 30], [10, 20], [20, 30]]
      (fun _ => 0, fun _ => 0)).2 (10, 30) : ℤ) = 1 := by rw [hp13]; rfl
  have hc23 : ((aggBaskets [[10, 20, 30], [10, 20], [20, 30]]
      (fun _ => 0, fun _ => 0)).2 (20, 30) : ℤ) = 2 := by rw [hp23]; rfl
  have hA1 : addEdge 10 20 (2 / Real.sqrt 6) [] =
      [((10 : ℤ), [((20 : ℤ), (2 : ℝ) / Real.sqrt 6)])] := by
    rw [addEdge_of_lookupA_none p1 (show lookupA 10 ([] : Graph) = none from rfl) 20,
      List.nil_append]
  have hA2 : addEdge 20 10 (2 / Real.sqrt 6)
      [((10 : ℤ), [((20 : ℤ), (2 : ℝ) / Real.sqrt 6)])] =
      [((10 : ℤ), [((20 : ℤ), (2 : ℝ) / Real.sqrt 6)]),
       (20, [(10, 2 / Real.sqrt 6)])] := by
    rw [addEdge_of_lookupA_none p1
      (show lookupA 20 [((10 : ℤ), [((20 : ℤ), (2 : ℝ) / Real.sqrt 6)])] = none
        from by simp [lookupA]) 10]
    rfl
  have hB1 : addEdge 10 30 (1 / Real.sqrt 4)
      [((10 : ℤ), [((20 : ℤ), (2 : ℝ) / Real.sqrt 6)]),
       (20, [(10, 2 / Real.sqrt 6)])] =
      [((10 : ℤ), [((20 : ℤ), (2 : ℝ) / Real.sqrt 6), ((30 : ℤ), (1 : ℝ) / Real.sqrt 4)]),
       (20, [(10, 2 / Real.sqrt 6)])] := by
    rw [addEdge_of_lookupA_some p2
      (show lookupA 10 [((10 : ℤ), [((20 : ℤ), (2 : ℝ) / Real.sqrt 6)]),
          (20, [(10, 2 / Real.sqrt 6)])] = some [((20 : ℤ), (2 : ℝ) / Real.sqrt 6)]
        from by simp [lookupA]) 30]
    rw [if_pos (show (lookupA 30 [((20 : ℤ), (2 : ℝ) / Real.sqrt 6)]).getD 0 <
        1 / Real.sqrt 4 from by
      rw [show lookupA 30 [((20 : ℤ), (2 : ℝ) / Real.sqrt 6)] = none
        from by simp [lookupA]]
      exact p2)]
    simp [updateA]
  have hB2 : addEdge 30 10 (1 / Real.sqrt 4)
      [((10 : ℤ), [((20 : ℤ), (2 : ℝ) / Real.sqrt 6), ((30 : ℤ), (1 : ℝ) / Real.sqrt 4)]),
       (20, [(10, 2 / Real.sqrt 6)])] =
      [((10 : ℤ), [((20 : ℤ), (2 : ℝ) / Real.sqrt 6), ((30 : ℤ), (1 : ℝ) / Real.sqrt 4)]),
       (20, [(10, 2 / Real.sqrt 6)]),
       (30, [(10, 1 / Real.sqrt 4)])] := by
    rw [addEdge_of_lookupA_none p2
      (show lookupA 30 [((10 : ℤ), [((20 : ℤ), (2 : ℝ) / Real.sqrt 6),
          ((30 : ℤ), (1 : ℝ) / Real.sqrt 4)]), (20, [(10, 2 / Real.sqrt 6)])] = none
        from by simp [lookupA]) 10]
    rfl
  have hC1 : addEdge 20 30 (2 / Real.sqrt 6)
      [((10 : ℤ), [((20 : ℤ), (2 : ℝ) / Real.sqrt 6), ((30 : ℤ), (1 : ℝ) / Real.sqrt 4)]),
       (20, [(10, 2 / Real.sqrt 6)]),
       (30, [(10, 1 / Real.sqrt 4)])] =
      [((10 : ℤ), [((20 : ℤ), (2 : ℝ) / Real.sqrt 6), ((30 : ℤ), (1 : ℝ) / Real.sqrt 4)]),
       (20, [(10, 2 / Real.sqrt 6), (30, 2 / Real.sqrt 6)]),
       (30, [(10, 1 / Real.sqrt 4)])] := by
    rw [addEdge_of_lookupA_some p1
      (show lookupA 20 [((10 : ℤ), [((20 : ℤ), (2 : ℝ) / Real.sqrt 6),
          ((30 : ℤ), (1 : ℝ) / Real.sqrt 4)]), (20, [(10, 2 / Real.sqrt 6)]),
          (30, [(10, 1 / Real.sqrt 4)])] = some [((10 : ℤ), (2 : ℝ) / Real.sqrt 6)]
        from by simp [lookupA]) 30]
    rw [if_pos (show (lookupA 30 [((10 : ℤ), (2 : ℝ) / Real.sqrt 6)]).getD 0 <
        2 / Real.sqrt 6 from by
      rw [show lookupA 30 [((10 : ℤ), (2 : ℝ) / Real.sqrt 6)] = none
        from by simp [lookupA]]
      exact p1)]
    simp [updateA]
  have hC2 : addEdge 30 20 (2 / Real.sqrt 6)
      [((10 : ℤ), [((20 : ℤ), (2 : ℝ) / Real.sqrt 6), ((30 : ℤ), (1 : ℝ) / Real.sqrt 4)]),
       (20, [(10, 2 / Real.sqrt 6), (30, 2 / Real.sqrt 6)]),
       (30, [(10, 1 / Real.sqrt 4)])] =
      [((10 : ℤ), [((20 : ℤ), (2 : ℝ) / Real.sqrt 6), ((30 : ℤ), (1 : ℝ) / Real.sqrt 4)]),
       (20, [(10, 2 / Real.sqrt 6), (30, 2 / Real.sqrt 6)]),
       (30, [(10, 1 / Real.sqrt 4), (20, 2 / Real.sqrt 6)])] := by
    rw [addEdge_of_lookupA_some p1
      (show lookupA 30 [((10 : ℤ), [((20 : ℤ), (2 : ℝ) / Real.sqrt 6),
          ((30 : ℤ), (1 : ℝ) / Real.sqrt 4)]),
          (20, [(10, 2 / Real.sqrt 6), (30, 2 / Real.sqrt 6)]),
          (30, [(10, 1 / Real.sqrt 4)])] = some [((10 : ℤ), (1 : ℝ) / Real.sqrt 4)]
        from by simp [lookupA]) 20]
    rw [if_pos (show (lookupA 20 [((10 : ℤ), (1 : ℝ) / Real.sqrt 4)]).getD 0 <
        2 / Real.sqrt 6 from by
      rw [show lookupA 20 [((10 : ℤ), (1 : ℝ) / Real.sqrt 4)] = none
        from by simp [lookupA]]
      exact p1)]
    simp [updateA]
  refine ⟨h10, h20, h30, hp12, hp13, hp23, e1, e2, e3, i1, ?_⟩
  have hG : buildScores
      (fun i => ((aggBaskets [[10, 20, 30], [10, 20], [20, 30]]
        (fun _ => 0, fun _ => 0)).1 i : ℤ))
      [(10, 20, ((aggBaskets [[10, 20, 30], [10, 20], [20, 30]]
          (fun _ => 0, fun _ => 0)).2 (10, 20) : ℤ)),
       (10, 30, ((aggBaskets [[10, 20, 30], [10, 20], [20, 30]]
          (fun _ => 0, fun _ => 0)).2 (10, 30) : ℤ)),
       (20, 30, ((aggBaskets [[10, 20, 30], [10, 20], [20, 30]]
          (fun _ => 0, fun _ => 0)).2 (20, 30) : ℤ))]
      (fun _ => 0) [] 1 3 =
      [((10 : ℤ), [((20 : ℤ), (2 : ℝ) / Real.sqrt 6), ((30 : ℤ), (1 : ℝ) / Real.sqrt 4)]),
       (20, [(10, 2 / Real.sqrt 6), (30, 2 / Real.sqrt 6)]),
       (30, [(10, 1 / Real.sqrt 4), (20, 2 / Real.sqrt 6)])] := by
    rw [buildScores, List.foldl_nil, List.foldl_cons, List.foldl_cons,
      List.foldl_cons, List.foldl_nil]
    simp only [viewContrib]
    rw [hc12, hc13, hc23, hv10, hv20, hv30, e1, e2, e3]
    simp only [ffs]
    simp only [addEdgePair]
    rw [hA1, hA2, hB1, hB2, hC1, hC2]
  rw [build_topk, lookupA_build_map, hG]
  rw [show lookupA 10
      [((10 : ℤ), [((20 : ℤ), (2 : ℝ) / Real.sqrt 6), ((30 : ℤ), (1 : ℝ) / Real.sqrt 4)]),
       (20, [(10, 2 / Real.sqrt 6), (30, 2 / Real.sqrt 6)]),
       (30, [(10, 1 / Real.sqrt 4), (20, 2 / Real.sqrt 6)])] =
    some [((20 : ℤ), (2 : ℝ) / Real.sqrt 6), ((30 : ℤ), (1 : ℝ) / Real.sqrt 4)]
    from by simp [lookupA]]
  rw [Option.map_some']
  show some ((List.take K (sortDesc
    [((20 : ℤ), (2 : ℝ) / Real.sqrt 6), ((30 : ℤ), (1 : ℝ) / Real.sqrt 4)])).map
      Prod.fst) = some [20, 30]
  have hsort : sortDesc
      [((20 : ℤ), (2 : ℝ) / Real.sqrt 6), ((30 : ℤ), (1 : ℝ) / Real.sqrt 4)] =
      [((20 : ℤ), (2 : ℝ) / Real.sqrt 6), ((30 : ℤ), (1 : ℝ) / Real.sqrt 4)] := by
    rw [sortDesc, List.insertionSort,
      show List.insertionSort (fun x y : ℤ × ℝ => y.2 ≤ x.2)
        [((30 : ℤ), (1 : ℝ) / Real.sqrt 4)] = [((30 : ℤ), (1 : ℝ) / Real.sqrt 4)]
        from rfl,
      List.orderedInsert, if_pos (le_of_lt i1)]
  rw [hsort, List.take_of_length_le (show
    ([((20 : ℤ), (2 : ℝ) / Real.sqrt 6), ((30 : ℤ), (1 : ℝ) / Real.sqrt 4)]).length ≤ K
    from by rw [List.length_cons, List.length_cons, List.length_nil]; omega)]
  rfl

/-- Witness for the amended C5 at `K = 2`. -/
theorem c5_end_to_end_witness :
    (aggBaskets [[10, 20, 30], [10, 20], [20, 30]] (fun _ => 0, fun _ => 0)).1 10 = 2 ∧
    (aggBaskets [[10, 20, 30], [10, 20], [20, 30]] (fun _ => 0, fun _ => 0)).1 20 = 3 ∧
    (aggBaskets [[10, 20, 30], [10, 20], [20, 30]] (fun _ => 0, fun _ => 0)).1 30 = 2 ∧
    (aggBaskets [[10, 20, 30], [10, 20], [20, 30]] (fun _ => 0, fun _ => 0)).2 (10, 20) = 2 ∧
    (aggBaskets [[10, 20, 30], [10, 20], [20, 30]] (fun _ => 0, fun _ => 0)).2 (10, 30) = 1 ∧
    (aggBaskets [[10, 20, 30], [10, 20], [20, 30]] (fun _ => 0, fun _ => 0)).2 (20, 30) = 2 ∧
    cosine_style_sim 2 2 3 = 2 / Real.sqrt 6 ∧
    cosine_style_sim 1 2 2 = 1 / Real.sqrt 4 ∧
    cosine_style_sim 2 3 2 = 2 / Real.sqrt 6 ∧
    1 / Real.sqrt 4 < 2 / Real.sqrt 6 ∧
    lookupA 10 (build_topk
      (fun i => ((aggBaskets [[10, 20, 30], [10, 20], [20, 30]]
        (fun _ => 0, fun _ => 0)).1 i : ℤ))
      [(10, 20, ((aggBaskets [[10, 20, 30], [10, 20], [20, 30]]
          (fun _ => 0, fun _ => 0)).2 (10, 20) : ℤ)),
       (10, 30, ((aggBaskets [[10, 20, 30], [10, 20], [20, 30]]
          (fun _ => 0, fun _ => 0)).2 (10, 30) : ℤ)),
       (20, 30, ((aggBaskets [[10, 20, 30], [10, 20], [20, 30]]
          (fun _ => 0, fun _ => 0)).2 (20, 30) : ℤ))]
      (fun _ => 0) [] 2 1 3) = some [20, 30] :=
  c5_end_to_end 2 (le_refl 2)


/-! ### Claim C9 : the streaming session extractor -/

theorem Clustered_sublist {l l' : List ℤ} (hs : List.Sublist l' l)
    (hc : Clustered l) : Clustered l' :=
  fun x hx y hy hsub => hc x (hs.subset hx) y (hs.subset hy) (hsub.trans hs)

theorem runsBy_nil : runsBy [] = [] := by
  rw [runsBy.eq_def]

theorem runsBy_cons (r : SRow) (rest : List SRow) :
    runsBy (r :: rest) =
      (r :: rest.takeWhile (fun x => x.session = r.session)) ::
        runsBy (rest.dropWhile (fun x => x.session = r.session)) := by
  rw [runsBy.eq_def]

/-- The session loop started in an established session equals basket-list
aggregation over the baskets emitted by `runsByK`. -/
theorem sessLoop_eq_agg (l : List SRow) :
    ∀ (k : ℤ) (items : List ℤ) (cnt : Cnt × PCnt),
      sessLoop l (some k) items cnt = aggBaskets (runsByK k items l) cnt := by
  induction l with
  | nil => intro k items cnt; rfl
  | cons r rest ih =>
    intro k items cnt
    rw [sessLoop, runsByK]
    by_cases h : r.session = k
    · rw [if_pos h, if_neg (show ¬ (r.session ≠ Option.getD (some k) r.session)
        from not_not_intro h)]
      exact ih k (insertSet r.itemid items) cnt
    · rw [if_neg h, if_pos (show r.session ≠ Option.getD (some k) r.session from h)]
      exact ih r.session (insertSet r.itemid []) (flushGroup items cnt)

/-- `runsByK` emits the items of the pending run merged into the open
basket, followed by the baskets of the remaining maximal runs. -/
theorem runsByK_eq (l : List SRow) :
    ∀ (k : ℤ) (items : List ℤ),
      runsByK k items l =
        ((l.takeWhile (fun x => x.session = k)).foldl
          (fun s r => insertSet r.itemid s) items) ::
        (runsBy (l.dropWhile (fun x => x.session = k))).map runItems := by
  induction l with
  | nil =>
    intro k items
    rw [runsByK]
    simp [runsBy_nil]
  | cons r rest ih =>
    intro k items
    rw [runsByK, List.takeWhile_cons, List.dropWhile_cons]
    by_cases h : r.session = k
    · rw [if_pos h, ih k (insertSet r.itemid items),
        if_pos (show decide (r.session = k) = true from by simp [h]),
        if_pos (show decide (r.session = k) = true from by simp [h]),
        List.foldl_cons]
    · rw [if_neg h, ih r.session (insertSet r.itemid []),
        if_neg (show ¬ decide (r.session = k) = true from by simp [h]),
        if_neg (show ¬ decide (r.session = k) = true from by simp [h]),
        runsBy_cons, List.map_cons]
      rfl

/-- First conjunct of C9: the streaming extractor equals `_flush_group`
aggregation over the maximal contiguous runs of the view-filtered rows —
one basket per run, closed at each key change and at end of stream. -/
theorem cooccur_runs (rows : List SRow) :
    cooccurFromSessionsCsv rows =
      aggBaskets ((runsBy (rows.filter isView)).map runItems)
        (fun _ => 0, fun _ => 0) := by
  rw [cooccurFromSessionsCsv]
  cases hfr : rows.filter isView with
  | nil => simp [sessLoop, flushGroup, runsBy_nil, aggBaskets]
  | cons r rest =>
    rw [sessLoop,
      if_neg (show ¬ (r.session ≠ Option.getD none r.session) from not_not_intro rfl)]
    show sessLoop rest (some r.session) (insertSet r.itemid [])
        (fun _ => 0, fun _ => 0) = _
    rw [sessLoop_eq_agg rest r.session (insertSet r.itemid []) _,
      runsByK_eq rest r.session (insertSet r.itemid []), runsBy_cons,
      List.map_cons]
    rfl

/-- Deduplication of a key list that starts with a run of `k` not
recurring later. -/
theorem dedup_cons_run (k : ℤ) :
    ∀ (ts : List ℤ), (∀ x ∈ ts, x = k) → ∀ (ds : List ℤ), k ∉ ds →
      (k :: (ts ++ ds)).dedup = k :: ds.dedup := by
  intro ts
  induction ts with
  | nil =>
    intro _ ds hk
    rw [List.nil_append, List.dedup_cons_of_not_mem hk]
  | cons t ts ih =>
    intro hts ds hk
    have ht : t = k := hts t (List.mem_cons_self _ _)
    subst ht
    rw [List.cons_append,
      List.dedup_cons_of_mem (List.mem_cons_self t _ : t ∈ t :: (ts ++ ds))]
    exact ih (fun x hx => hts x (List.mem_cons_of_mem _ hx)) ds hk

/-- No row after the leading run of the head key carries that key again,
when the key sequence is clustered. -/
theorem dropWhile_not_head_key (r : SRow) (rest : List SRow)
    (hc : Clustered ((r :: rest).map (fun x => x.session))) :
    ∀ x ∈ rest.dropWhile (fun x => x.session = r.session),
      ¬ x.session = r.session := by
  intro x hx hxk
  have hdne : rest.dropWhile (fun x => x.session = r.session) ≠ [] :=
    List.ne_nil_of_mem hx
  have hx1 := List.head_dropWhile_not
    (fun x => decide (x.session = r.session)) rest hdne
  have hx1' : ¬ ((rest.dropWhile (fun x => x.session = r.session)).head hdne).session
      = r.session := of_decide_eq_false hx1
  have hd := List.head_cons_tail
    (rest.dropWhile (fun x => x.session = r.session)) hdne
  have hx' : x ∈ (rest.dropWhile (fun x => x.session = r.session)).head hdne ::
      (rest.dropWhile (fun x => x.session = r.session)).tail := by
    rw [hd]; exact hx
  rcases List.mem_cons.mp hx' with h1 | h2
  · exact hx1' (h1 ▸ hxk)
  · have hsub1 : List.Sublist
        [(rest.dropWhile (fun x => x.session = r.session)).head hdne, x]
        ((rest.dropWhile (fun x => x.session = r.session)).head hdne ::
          (rest.dropWhile (fun x => x.session = r.session)).tail) :=
      List.Sublist.cons₂ _ (List.singleton_sublist.mpr h2)
    rw [hd] at hsub1
    have hsub2 : List.Sublist
        [(rest.dropWhile (fun x => x.session = r.session)).head hdne, x] rest :=
      hsub1.trans (List.dropWhile_sublist _)
    have hsub3 : List.Sublist
        [r, (rest.dropWhile (fun x => x.session = r.session)).head hdne, x]
        (r :: rest) := List.Sublist.cons₂ r hsub2
    have hmap := List.Sublist.map (fun x : SRow => x.session) hsub3
    rw [List.map_cons, List.map_cons, List.map_cons, List.map_nil, hxk] at hmap
    have hx1mem : (rest.dropWhile (fun x => x.session = r.session)).head hdne ∈
        r :: rest :=
      List.mem_cons_of_mem r ((List.dropWhile_sublist _).subset
        (hd ▸ List.mem_cons_self _ _))
    have hys : ((rest.dropWhile (fun x => x.session = r.session)).head hdne).session ∈
        (r :: rest).map (fun x : SRow => x.session) :=
      List.mem_map_of_mem _ hx1mem
    exact hx1' (hc r.session (by simp) _ hys hmap)

/-- Under a clustered key sequence, the maximal runs' item sets coincide,
in order, with the per-session item sets listed by first occurrence of
each distinct key. -/
theorem runs_eq_sessions_aux :
    ∀ (n : ℕ) (fr : List SRow), fr.length ≤ n →
      Clustered (fr.map (fun r => r.session)) →
      (runsBy fr).map runItems =
        ((fr.map (fun r => r.session)).dedup).map (sessionItems fr) := by
  intro n
  induction n with
  | zero =>
    intro fr hlen _
    have hnil : fr = [] := List.length_eq_zero.mp (Nat.le_zero.mp hlen)
    subst hnil
    simp [runsBy_nil]
  | succ n ih =>
    intro fr hlen hc
    cases fr with
    | nil => simp [runsBy_nil]
    | cons r rest =>
      have hkd := dropWhile_not_head_key r rest hc
      have hsplit := List.takeWhile_append_dropWhile
        (fun x => decide (x.session = r.session)) rest
      have hkdd : r.session ∉
          (rest.dropWhile (fun x => x.session = r.session)).map
            (fun x => x.session) := by
        intro hmem
        obtain ⟨x, hx, hxs⟩ := List.mem_map.mp hmem
        exact hkd x hx hxs
      have hmapsplit : rest.map (fun x => x.session) =
          (rest.takeWhile (fun x => x.session = r.session)).map
            (fun x => x.session) ++
          (rest.dropWhile (fun x => x.session = r.session)).map
            (fun x => x.session) := by
        conv_lhs => rw [← hsplit]
        rw [List.map_append]
      have hdedup : ((r :: rest).map (fun x => x.session)).dedup =
          r.session ::
            ((rest.dropWhile (fun x => x.session = r.session)).map
              (fun x => x.session)).dedup := by
        rw [List.map_cons, hmapsplit]
        refine dedup_cons_run r.session _ ?_ _ hkdd
        intro x hx
        obtain ⟨y, hy, hys⟩ := List.mem_map.mp hx
        have hyk : y.session = r.session := by
          simpa using List.mem_takeWhile_imp hy
        rw [← hys, hyk]
      have hfilt : (r :: rest).filter (fun x => x.session = r.session) =
          r :: rest.takeWhile (fun x => x.session = r.session) := by
        rw [List.filter_cons,
          if_pos (show decide (r.session = r.session) = true from by simp)]
        have hft : (rest.takeWhile (fun x => x.session = r.session)).filter
            (fun x => x.session = r.session) =
            rest.takeWhile (fun x => x.session = r.session) := by
          refine List.filter_eq_self.mpr ?_
          intro a ha
          simpa using List.mem_takeWhile_imp ha
        have hfd : (rest.dropWhile (fun x => x.session = r.session)).filter
            (fun x => x.session = r.session) = [] := by
          refine List.filter_eq_nil_iff.mpr ?_
          intro a ha hpa
          exact hkd a ha (by simpa using hpa)
        congr 1
        conv_lhs => rw [← hsplit]
        rw [List.filter_append, hft, hfd, List.append_nil]
      have hsess : ∀ k' ∈ ((rest.dropWhile (fun x => x.session = r.session)).map
            (fun x => x.session)).dedup,
          sessionItems (r :: rest) k' =
            sessionItems (rest.dropWhile (fun x => x.session = r.session)) k' := by
        intro k' hk'
        obtain ⟨y, hy, hys⟩ := List.mem_map.mp (List.mem_dedup.mp hk')
        have hk'ne : k' ≠ r.session := fun hkk => hkd y hy (hys.trans hkk)
        have hft : (rest.takeWhile (fun x => x.session = r.session)).filter
            (fun x => x.session = k') = [] := by
          refine List.filter_eq_nil_iff.mpr ?_
          intro a ha hpa
          have has : a.session = r.session := by
            simpa using List.mem_takeWhile_imp ha
          have hak : a.session = k' := by simpa using hpa
          exact hk'ne (hak.symm.trans has)
        rw [sessionItems, sessionItems]
        congr 1
        rw [List.filter_cons,
          if_neg (show ¬ decide (r.session = k') = true from by
            simp only [decide_eq_true_eq]
            exact fun hrk => hk'ne hrk.symm)]
        conv_lhs => rw [← hsplit]
        rw [List.filter_append, hft, List.nil_append]
      have hlen' : (rest.dropWhile (fun x => x.session = r.session)).length ≤ n :=
        le_trans (List.Sublist.length_le (List.dropWhile_sublist _))
          (Nat.le_of_succ_le_succ (by simpa using hlen))
      have hccd : Clustered
          ((rest.dropWhile (fun x => x.session = r.session)).map
            (fun x => x.session)) :=
        Clustered_sublist
          (List.Sublist.map _ ((List.dropWhile_sublist _).trans
            (List.sublist_cons_self r rest))) hc
      rw [runsBy_cons, List.map_cons, ih _ hlen' hccd, hdedup, List.map_cons]
      congr 1
      · rw [← hfilt]; rfl
      · exact (List.map_congr_left (fun k' hk' => hsess k' hk')).symm

/-- C9: for any record stream, the streaming extractor aggregates exactly
one basket per maximal contiguous run of equal session keys among the
rows passing the `view` filter (a basket closes at each key change, the
final one at end of stream, non-view rows are dropped before grouping);
and when all rows sharing a session key are contiguous in the stream, the
resulting counters equal those of aggregating the per-session item
sets. -/
theorem c9_session_stream_spec (rows : List SRow) :
    cooccurFromSessionsCsv rows =
      aggBaskets ((runsBy (rows.filter isView)).map runItems)
        (fun _ => 0, fun _ => 0) ∧
    (Clustered (rows.map (fun r => r.session)) →
      cooccurFromSessionsCsv rows =
        aggBaskets ((((rows.filter isView).map (fun r => r.session)).dedup).map
          (sessionItems (rows.filter isView))) (fun _ => 0, fun _ => 0)) := by
  refine ⟨cooccur_runs rows, fun hc => ?_⟩
  rw [cooccur_runs rows,
    runs_eq_sessions_aux (rows.filter isView).length (rows.filter isView) le_rfl
      (Clustered_sublist (List.Sublist.map _ (List.filter_sublist rows)) hc)]

/-- Witness for C9 on a concrete four-row stream with two sessions and a
non-view row. -/
theorem c9_session_stream_spec_witness :
    cooccurFromSessionsCsv
        [⟨1, "view", 10⟩, ⟨1, "view", 20⟩, ⟨2, "view", 20⟩, ⟨2, "buy", 30⟩] =
      aggBaskets ((runsBy ([⟨1, "view", 10⟩, ⟨1, "view", 20⟩, ⟨2, "view", 20⟩,
          ⟨2, "buy", 30⟩].filter isView)).map runItems)
        (fun _ => 0, fun _ => 0) ∧
    cooccurFromSessionsCsv
        [⟨1, "view", 10⟩, ⟨1, "view", 20⟩, ⟨2, "view", 20⟩, ⟨2, "buy", 30⟩] =
      aggBaskets (((([⟨1, "view", 10⟩, ⟨1, "view", 20⟩, ⟨2, "view", 20⟩,
          ⟨2, "buy", 30⟩].filter isView).map (fun r => r.session)).dedup).map
        (sessionItems ([⟨1, "view", 10⟩, ⟨1, "view", 20⟩, ⟨2, "view", 20⟩,
          ⟨2, "buy", 30⟩].filter isView))) (fun _ => 0, fun _ => 0) :=
  ⟨(c9_session_stream_spec _).1,
   (c9_session_stream_spec
      [⟨1, "view", 10⟩, ⟨1, "view", 20⟩, ⟨2, "view", 20⟩, ⟨2, "buy", 30⟩]).2
     (by decide)⟩

end RetailRocket
